import Mathlib

/-!
Verification of the Internet-Speed-Tester measurement core against its
specification.  The definitions below are a shallow embedding of
`src/speedtest_client/data_structures.py`, `http_client.py` and `engine.py`:
Python floats are modelled as rationals, `bytes` as lists of byte values,
`Optional[float]` as `Option ℚ`, and the network is modelled by explicit
outcome values (the transport layer absorbs every exception into a return
value, so each network call is a pure outcome).
-/

/-- `Location` from data_structures.py: a latitude/longitude pair.
Coordinates are modelled as rationals. -/
structure Location where
  latitude : ℚ
  longitude : ℚ
deriving DecidableEq

/-- `Server` from data_structures.py.  `latency` and `distance` start unset
(`None` in the source) and are written only by probing / `get_closest`. -/
structure Server where
  id : ℕ
  sponsor : String
  name : String
  location : Location
  country : String
  url : String
  latency : Option ℚ := none
  distance : Option ℚ := none
deriving DecidableEq

/-- `ClientInfo` from data_structures.py. -/
structure ClientInfo where
  ip : String
  isp : String
  location : Location
  country : String := ""
deriving DecidableEq

/-- `TestResult` from data_structures.py (the timestamp, a wall-clock value,
is outside the embedding).  Speeds are bits per second, ping milliseconds. -/
structure TestResult where
  download_speed : ℚ := 0
  upload_speed : ℚ := 0
  ping : ℚ := 0
  server : Option Server := none
  client : Option ClientInfo := none
  bytes_sent : ℕ := 0
  bytes_received : ℕ := 0
deriving DecidableEq

/-- The freshly constructed `TestResult()` of `run_test`. -/
def emptyResult : TestResult := {}

/-- A default server, used only as the `getD` fallback in statements. -/
def dummyServer : Server :=
  { id := 0, sponsor := "", name := "", location := ⟨0, 0⟩, country := "", url := "" }

/-! ## ServerList (data_structures.py)

`ServerList` owns `_servers : List[Server]` and `_server_dict : Dict[int,
Server]`.  The dict is embedded as an association list with Python-dict
semantics: assignment overwrites the entry with the same key, otherwise
appends. -/

/-- Python dict assignment `d[k] = v`: overwrite the entry holding key `k`,
else append a new entry. -/
def dictInsert (d : List (ℕ × Server)) (k : ℕ) (v : Server) : List (ℕ × Server) :=
  if d.any (fun p => p.1 == k) then
    d.map (fun p => if p.1 == k then (k, v) else p)
  else
    d ++ [(k, v)]

/-- Python `d.get(k)`: the value stored at key `k`, if any. -/
def dictGet (d : List (ℕ × Server)) (k : ℕ) : Option Server :=
  (d.find? (fun p => p.1 == k)).map (fun p => p.2)

structure ServerList where
  servers : List Server
  dict : List (ℕ × Server)
deriving DecidableEq

/-- `ServerList.__init__`. -/
def ServerList.empty : ServerList := ⟨[], []⟩

/-- `ServerList.add`: `self._servers.append(server)` and
`self._server_dict[server.id] = server`.  The list appends unconditionally;
only the dict overwrites on a duplicate id. -/
def ServerList.add (sl : ServerList) (s : Server) : ServerList :=
  ⟨sl.servers ++ [s], dictInsert sl.dict s.id s⟩

/-- `ServerList.get_by_id`. -/
def ServerList.get_by_id (sl : ServerList) (server_id : ℕ) : Option Server :=
  dictGet sl.dict server_id

/-- Rebuild a registry from a list of servers by repeated `add` (the pattern
`self.servers = ServerList(); for s in closest: self.servers.add(s)` of
engine.py). -/
def ServerList.fromList (l : List Server) : ServerList :=
  l.foldl ServerList.add ServerList.empty

/-! ### get_best

`get_best` filters the servers with a measured latency and takes Python
`min(valid, key=lambda s: s.latency)`, which returns the first element
attaining the minimal key. -/

/-- The sort/min key `lambda s: s.latency` on a server whose latency is
measured (the filter guarantees `isSome`, so the default is never used). -/
def latKey (s : Server) : ℚ := s.latency.getD 0

/-- One step of Python `min` with a key: keep the accumulator unless the new
element's key is strictly smaller (so the first minimum wins). -/
def stepMin (key : Server → ℚ) (b a : Server) : Server :=
  if key a < key b then a else b

/-- Python `min(l, key)` for a possibly empty list: `none` on `[]`, else the
first element of minimal key. -/
def pyMin (key : Server → ℚ) : List Server → Option Server
  | [] => none
  | x :: xs => some (xs.foldl (stepMin key) x)

/-- The servers holding a measured latency, in held order. -/
def ServerList.valid (sl : ServerList) : List Server :=
  sl.servers.filter (fun s => s.latency.isSome)

/-- `ServerList.get_best`: `min` over the latency-measured servers, absent
when there are none. -/
def ServerList.get_best (sl : ServerList) : Option Server :=
  pyMin latKey sl.valid

/-! ## List helper lemmas -/

/-- `getD` at an index inside the list is a member of the list. -/
theorem listGetD_mem {α} (l : List α) (n : ℕ) (d : α) (h : n < l.length) :
    l.getD n d ∈ l := by
  induction l generalizing n with
  | nil => simp at h
  | cons a t ih =>
    cases n with
    | zero => simp [List.getD]
    | succ m =>
      simp only [List.length_cons, Nat.succ_lt_succ_iff] at h
      simpa [List.getD] using Or.inr (ih m h)

/-- `getD` on an append, left part. -/
theorem listGetD_append_left {α} (A B : List α) (i : ℕ) (d : α) (h : i < A.length) :
    (A ++ B).getD i d = A.getD i d := by
  induction A generalizing i with
  | nil => simp at h
  | cons a t ih =>
    cases i with
    | zero => simp [List.getD]
    | succ m =>
      simp only [List.length_cons, Nat.succ_lt_succ_iff] at h
      simpa [List.getD] using ih m h

/-- `getD` on an append, right part: index shifted by the left length. -/
theorem listGetD_append_right {α} (A B : List α) (i : ℕ) (d : α) :
    (A ++ B).getD (A.length + i) d = B.getD i d := by
  induction A with
  | nil => simp
  | cons a t ih => simpa [List.getD, Nat.succ_add] using ih

/-- `getD` commutes with `take` below the cut. -/
theorem listGetD_take {α} (l : List α) (n i : ℕ) (d : α) (h : i < n) :
    (l.take n).getD i d = l.getD i d := by
  induction l generalizing n i with
  | nil => simp
  | cons a t ih =>
    cases n with
    | zero => simp at h
    | succ m =>
      cases i with
      | zero => simp [List.getD]
      | succ j =>
        simp only [Nat.succ_lt_succ_iff] at h
        simpa [List.getD] using ih m j h

/-! ## Dict lemma for `add` -/

/-- After a Python-dict assignment `d[k] = v`, looking up `k` finds the entry
`(k, v)`. -/
theorem dictFind_insert (d : List (ℕ × Server)) (k : ℕ) (v : Server) :
    (dictInsert d k v).find? (fun p => p.1 == k) = some (k, v) := by
  induction d with
  | nil => simp [dictInsert, List.find?]
  | cons a t ih =>
    by_cases ha : a.1 = k
    · simp [dictInsert, List.any_cons, ha, List.find?]
    · have ha' : (a.1 == k) = false := by simp [ha]
      cases ht : t.any (fun p => p.1 == k) with
      | true =>
        have hins : dictInsert (a :: t) k v
            = (a :: t).map (fun p => if p.1 == k then (k, v) else p) := by
          simp [dictInsert, List.any_cons, ha', ht]
        have hins' : dictInsert t k v
            = t.map (fun p => if p.1 == k then (k, v) else p) := by
          simp [dictInsert, ht]
        rw [hins, List.map_cons]
        rw [List.find?_cons_of_neg _ (by simp [ha])]
        rw [hins'] at ih
        exact ih
      | false =>
        have hins : dictInsert (a :: t) k v = (a :: t) ++ [(k, v)] := by
          simp [dictInsert, List.any_cons, ha', ht]
        have hins' : dictInsert t k v = t ++ [(k, v)] := by
          simp [dictInsert, ht]
        rw [hins, List.cons_append]
        rw [List.find?_cons_of_neg _ (by simp [ha])]
        rw [hins'] at ih
        exact ih

/-- Looking up the just-assigned key returns the new value. -/
theorem dictGet_insert_self (d : List (ℕ × Server)) (k : ℕ) (v : Server) :
    dictGet (dictInsert d k v) k = some v := by
  simp [dictGet, dictFind_insert]

/-! ## Claim C5: `add` with a duplicate id -/

/-- First-held server for the C5 counterexample. -/
def cexS1 : Server :=
  { id := 7, sponsor := "Alpha", name := "A", location := ⟨0, 0⟩, country := "X",
    url := "http://a/speedtest/upload.php" }

/-- Second server with the same id but different fields. -/
def cexS2 : Server :=
  { id := 7, sponsor := "Beta", name := "B", location := ⟨1, 1⟩, country := "Y",
    url := "http://b/speedtest/upload.php" }

/-- C5 counterexample: adding a second server with a duplicate id does NOT
keep the collection at a single server for that id — `_servers.append` runs
unconditionally, so iteration and length show both servers (only the
id-index returns the new one). -/
theorem C5_add_counterexample :
    ((ServerList.empty.add cexS1).add cexS2).servers.length = 2
    ∧ ¬ ((ServerList.empty.add cexS1).add cexS2).servers.length = 1
    ∧ cexS1 ∈ ((ServerList.empty.add cexS1).add cexS2).servers
    ∧ cexS2 ∈ ((ServerList.empty.add cexS1).add cexS2).servers
    ∧ ((ServerList.empty.add cexS1).add cexS2).get_by_id 7 = some cexS2 := by
  decide

/-- C5 amended: after `add(s2)` with `s2.id = s1.id`, `getById` returns `s2`
(the id-index is overwritten), but the ordered collection appends: the held
list is the old list plus `s2`, so its length grows by one and iteration
yields both servers. -/
theorem C5_add_overwrites_index_but_appends (sl : ServerList) (s1 s2 : Server)
    (h : s2.id = s1.id) :
    (sl.add s2).get_by_id s1.id = some s2
    ∧ (sl.add s2).servers = sl.servers ++ [s2]
    ∧ (sl.add s2).servers.length = sl.servers.length + 1 := by
  refine ⟨?_, rfl, by simp [ServerList.add]⟩
  rw [← h]
  exact dictGet_insert_self sl.dict s2.id s2

/-- C5 witness: the amended statement at the concrete duplicate-id pair. -/
theorem C5_add_overwrites_index_but_appends_witness :
    ((ServerList.empty.add cexS1).add cexS2).get_by_id cexS1.id = some cexS2
    ∧ ((ServerList.empty.add cexS1).add cexS2).servers
        = (ServerList.empty.add cexS1).servers ++ [cexS2]
    ∧ ((ServerList.empty.add cexS1).add cexS2).servers.length
        = (ServerList.empty.add cexS1).servers.length + 1 :=
  C5_add_overwrites_index_but_appends (ServerList.empty.add cexS1) cexS1 cexS2 (by decide)

/-! ## Claim C6: `get_best` -/

/-- Specification of the fold behind Python `min(·, key)`: the result either
is the seed and the seed's key is minimal over the list, or it is the first
element of the list whose key is strictly below the seed's and minimal over
the list, with every earlier element strictly larger. -/
theorem foldl_stepMin_spec (key : Server → ℚ) (l : List Server) (b : Server) :
    (l.foldl (stepMin key) b = b ∧ ∀ j, j < l.length → key b ≤ key (l.getD j dummyServer))
    ∨ (∃ i, i < l.length
        ∧ l.foldl (stepMin key) b = l.getD i dummyServer
        ∧ key (l.getD i dummyServer) < key b
        ∧ (∀ j, j < l.length → key (l.getD i dummyServer) ≤ key (l.getD j dummyServer))
        ∧ (∀ j, j < i → key (l.getD i dummyServer) < key (l.getD j dummyServer))) := by
  induction l generalizing b with
  | nil => exact Or.inl ⟨rfl, fun j hj => absurd hj (by simp)⟩
  | cons a t ih =>
    have hfold : (a :: t).foldl (stepMin key) b = t.foldl (stepMin key) (stepMin key b a) :=
      rfl
    by_cases hc : key a < key b
    · have hstep : stepMin key b a = a := if_pos hc
      rcases ih a with ⟨he, hmin⟩ | ⟨i, hi, he, hlt, hmin, hpre⟩
      · refine Or.inr ⟨0, by simp, ?_, ?_, ?_, ?_⟩
        · rw [hfold, hstep, he]; rfl
        · simpa [List.getD] using hc
        · intro j hj
          cases j with
          | zero => exact le_refl _
          | succ m =>
            simp only [List.length_cons, Nat.succ_lt_succ_iff] at hj
            simpa [List.getD] using hmin m hj
        · intro j hj; exact absurd hj (Nat.not_lt_zero j)
      · refine Or.inr ⟨i + 1, by simpa using hi, ?_, ?_, ?_, ?_⟩
        · rw [hfold, hstep, he]; rfl
        · calc key ((a :: t).getD (i + 1) dummyServer)
              = key (t.getD i dummyServer) := by simp [List.getD]
            _ < key a := hlt
            _ < key b := hc
        · intro j hj
          cases j with
          | zero =>
            simpa [List.getD] using le_of_lt hlt
          | succ m =>
            simp only [List.length_cons, Nat.succ_lt_succ_iff] at hj
            simpa [List.getD] using hmin m hj
        · intro j hj
          cases j with
          | zero => simpa [List.getD] using hlt
          | succ m =>
            simp only [Nat.succ_lt_succ_iff] at hj
            simpa [List.getD] using hpre m hj
    · have hstep : stepMin key b a = b := if_neg hc
      have hba : key b ≤ key a := le_of_not_lt hc
      rcases ih b with ⟨he, hmin⟩ | ⟨i, hi, he, hlt, hmin, hpre⟩
      · refine Or.inl ⟨by rw [hfold, hstep]; exact he, ?_⟩
        intro j hj
        cases j with
        | zero => simpa [List.getD] using hba
        | succ m =>
          simp only [List.length_cons, Nat.succ_lt_succ_iff] at hj
          simpa [List.getD] using hmin m hj
      · refine Or.inr ⟨i + 1, by simpa using hi, ?_, ?_, ?_, ?_⟩
        · rw [hfold, hstep, he]; rfl
        · calc key ((a :: t).getD (i + 1) dummyServer)
              = key (t.getD i dummyServer) := by simp [List.getD]
            _ < key b := hlt
        · intro j hj
          cases j with
          | zero => simpa [List.getD] using le_of_lt (lt_of_lt_of_le hlt hba)
          | succ m =>
            simp only [List.length_cons, Nat.succ_lt_succ_iff] at hj
            simpa [List.getD] using hmin m hj
        · intro j hj
          cases j with
          | zero => simpa [List.getD] using lt_of_lt_of_le hlt hba
          | succ m =>
            simp only [Nat.succ_lt_succ_iff] at hj
            simpa [List.getD] using hpre m hj

/-- A member of a list sits at some index (as `getD`). -/
theorem listMem_exists_getD {α} (l : List α) (a : α) (d : α) (h : a ∈ l) :
    ∃ j, j < l.length ∧ l.getD j d = a := by
  induction l with
  | nil => simp at h
  | cons x t ih =>
    rcases List.mem_cons.mp h with rfl | ht
    · exact ⟨0, by simp, rfl⟩
    · rcases ih ht with ⟨j, hj, hget⟩
      exact ⟨j + 1, by simpa using hj, by simpa [List.getD] using hget⟩

/-- C6: `get_best` returns absent exactly when no held server has a measured
latency; otherwise it returns a held, measured server whose latency is
minimal among the measured ones, and of the minimal-latency servers it is the
first encountered (every strictly earlier measured server has a strictly
larger latency). -/
theorem C6_get_best_spec (sl : ServerList) :
    (sl.get_best = none ↔ ∀ s ∈ sl.servers, s.latency = none)
    ∧ (∀ b, sl.get_best = some b →
        b ∈ sl.servers ∧ b.latency.isSome = true
        ∧ (∀ s ∈ sl.valid, latKey b ≤ latKey s)
        ∧ (∃ i, i < sl.valid.length ∧ sl.valid.getD i dummyServer = b
            ∧ ∀ j, j < i → latKey b < latKey (sl.valid.getD j dummyServer))) := by
  constructor
  · constructor
    · intro hnone s hs
      by_contra hlat
      have hsome : s.latency.isSome := by
        cases hl : s.latency with
        | none => exact absurd hl hlat
        | some q => simp
      have hmem : s ∈ sl.valid := List.mem_filter.mpr ⟨hs, hsome⟩
      cases hv : sl.valid with
      | nil => rw [hv] at hmem; simp at hmem
      | cons v vs =>
        rw [ServerList.get_best, hv] at hnone
        simp [pyMin] at hnone
    · intro hall
      have hv : sl.valid = [] := by
        apply List.filter_eq_nil_iff.mpr
        intro a ha
        simp [hall a ha]
      rw [ServerList.get_best, hv]
      rfl
  · intro b hb
    cases hv : sl.valid with
    | nil =>
      rw [ServerList.get_best, hv] at hb
      simp [pyMin] at hb
    | cons v vs =>
      rw [ServerList.get_best, hv] at hb
      simp only [pyMin, Option.some_inj] at hb
      have hbv : b ∈ sl.valid := by
        rw [hv]
        rcases foldl_stepMin_spec latKey vs v with ⟨he, _⟩ | ⟨i, hi, he, _, _, _⟩
        · rw [he] at hb; rw [← hb]; exact List.mem_cons_self v vs
        · rw [he] at hb; rw [← hb]
          exact List.mem_cons_of_mem v (listGetD_mem vs i dummyServer hi)
      have hmem : b ∈ sl.servers := (List.mem_filter.mp hbv).1
      have hsome : b.latency.isSome = true := by
        simpa using (List.mem_filter.mp hbv).2
      refine ⟨hmem, hsome, ?_, ?_⟩
      · intro s hs
        rcases foldl_stepMin_spec latKey vs v with ⟨he, hmin⟩ | ⟨i, hi, he, hlt, hmin, _⟩
        · have hbeq : b = v := hb.symm.trans he
          rcases List.mem_cons.mp hs with rfl | ht
          · rw [hbeq]
          · rcases listMem_exists_getD vs s dummyServer ht with ⟨j, hj, hget⟩
            rw [hbeq, ← hget]
            exact hmin j hj
        · have hbeq : b = vs.getD i dummyServer := hb.symm.trans he
          rcases List.mem_cons.mp hs with rfl | ht
          · rw [hbeq]; exact le_of_lt hlt
          · rcases listMem_exists_getD vs s dummyServer ht with ⟨j, hj, hget⟩
            rw [hbeq, ← hget]
            exact hmin j hj
      · rcases foldl_stepMin_spec latKey vs v with ⟨he, _⟩ | ⟨i, hi, he, hlt, _, hpre⟩
        · have hbeq : b = v := hb.symm.trans he
          refine ⟨0, by simp, by rw [hbeq]; rfl, ?_⟩
          intro j hj
          exact absurd hj (Nat.not_lt_zero j)
        · have hbeq : b = vs.getD i dummyServer := hb.symm.trans he
          refine ⟨i + 1, by simpa using hi, by rw [hbeq]; simp [List.getD], ?_⟩
          intro j hj
          cases j with
          | zero =>
            rw [hbeq]
            simpa [List.getD] using hlt
          | succ m =>
            rw [hbeq]
            simp only [Nat.succ_lt_succ_iff] at hj
            simpa [List.getD] using hpre m hj

/-! ## Claim C7: `get_closest`

`get_closest` writes `server.distance = client_location.distance_to(server.location)`
for every held server, then runs Python
`sorted(self._servers, key=lambda s: s.distance or float('inf'))[:limit]`.

The haversine `distance_to` is real trigonometry, so the embedding takes the
distance function as a parameter; every property below holds for an arbitrary
distance function, and the mathematical facts used of the real haversine are
only `distance_to(a, a) = 0` and positivity away from the origin point.

The sort key is Python's `s.distance or float('inf')`: `or` yields the right
operand for every *falsy* left operand, and both `None` and `0.0` are falsy,
so an unset distance AND a distance of exactly zero are both replaced by
infinity.  Infinity is modelled as the top element of `WithTop ℚ`. -/

/-- The write `server.distance = client_location.distance_to(server.location)`. -/
def set_distance (dist : Location → Location → ℚ) (origin : Location) (s : Server) :
    Server :=
  { s with distance := some (dist origin s.location) }

/-- The sort key `lambda s: s.distance or float('inf')`: `None` and `0.0` are
falsy in Python, so both map to infinity. -/
def sortKey (s : Server) : WithTop ℚ :=
  match s.distance with
  | none => ⊤
  | some d => if d = 0 then ⊤ else (d : WithTop ℚ)

/-- Stable insertion of `x` into a key-sorted list: `x` goes after every
element whose key is less than or equal to its own. -/
def insLe (key : Server → WithTop ℚ) (x : Server) : List Server → List Server
  | [] => [x]
  | y :: ys => if key y ≤ key x then y :: insLe key x ys else x :: y :: ys

/-- Python `sorted(l, key=key)`: a stable ascending sort by key (Python's
sort is stable, so any stable ascending sort yields the identical list). -/
def stableSort (key : Server → WithTop ℚ) (l : List Server) : List Server :=
  l.foldl (fun acc x => insLe key x acc) []

/-- `ServerList.get_closest`: returns the mutated registry (every held
server's `distance` overwritten, in the list and in the id-index, which alias
the same objects in Python) together with the sorted, truncated result list. -/
def ServerList.get_closest (dist : Location → Location → ℚ) (sl : ServerList)
    (client_location : Location) (limit : ℕ) : ServerList × List Server :=
  let updated := sl.servers.map (set_distance dist client_location)
  (⟨updated, sl.dict.map (fun p => (p.1, set_distance dist client_location p.2))⟩,
   (stableSort sortKey updated).take limit)

/-- Client origin used in the C7 failing input. -/
def origin0 : Location := ⟨10, 10⟩

/-- A distinct location away from the origin. -/
def farLoc0 : Location := ⟨11, 11⟩

/-- A probe server located exactly at the client's coordinates (0 km away). -/
def serverAt0 : Server :=
  { id := 1, sponsor := "Here", name := "H", location := origin0, country := "X",
    url := "http://h/speedtest/upload.php" }

/-- A probe server at a strictly positive distance. -/
def serverFar : Server :=
  { id := 2, sponsor := "There", name := "T", location := farLoc0, country := "X",
    url := "http://t/speedtest/upload.php" }

/-- The registry holding the co-located server first, the far server second. -/
def regAB : ServerList := (ServerList.empty.add serverAt0).add serverFar

/-- C7 (code bug): for ANY distance function with `dist o o = 0` and a
strictly positive distance to the far server — as the haversine of the source
has — `get_closest` does store a distance on every held server, but the
returned list is NOT ascending by distance: the 0-km server is keyed
`float('inf')` by the falsy-zero `or` and is sorted last, after the strictly
farther server. -/
theorem C7_zero_distance_sorted_last (dist : Location → Location → ℚ)
    (h0 : dist origin0 origin0 = 0) (hB : 0 < dist origin0 farLoc0) :
    ((regAB.get_closest dist origin0 5).1.servers.map Server.distance
      = [some 0, some (dist origin0 farLoc0)])
    ∧ (regAB.get_closest dist origin0 5).2
      = [set_distance dist origin0 serverFar, set_distance dist origin0 serverAt0]
    ∧ (set_distance dist origin0 serverAt0).distance = some 0
    ∧ (set_distance dist origin0 serverFar).distance = some (dist origin0 farLoc0) := by
  have hne : dist origin0 farLoc0 ≠ 0 := ne_of_gt hB
  have hkeyA : sortKey (set_distance dist origin0 serverAt0) = ⊤ := by
    simp [sortKey, set_distance, serverAt0, h0]
  have hkeyB : sortKey (set_distance dist origin0 serverFar)
      = ((dist origin0 farLoc0 : ℚ) : WithTop ℚ) := by
    simp [sortKey, set_distance, serverFar, hne]
  have hcond : ¬ (sortKey (set_distance dist origin0 serverAt0)
      ≤ sortKey (set_distance dist origin0 serverFar)) := by
    rw [hkeyA, hkeyB]
    simp [top_le_iff]
  refine ⟨?_, ?_, ?_, ?_⟩
  · simp [ServerList.get_closest, regAB, ServerList.add, ServerList.empty,
      set_distance, serverAt0, serverFar, h0]
  · show (stableSort sortKey
      ((regAB.servers).map (set_distance dist origin0))).take 5 = _
    have hservers : regAB.servers = [serverAt0, serverFar] := by decide
    rw [hservers]
    show (insLe sortKey (set_distance dist origin0 serverFar)
      (insLe sortKey (set_distance dist origin0 serverAt0) [])).take 5 = _
    rw [insLe, insLe, if_neg hcond]
    rfl
  · simp [set_distance, serverAt0, h0]
  · simp [set_distance, serverFar]

/-- A sample distance function witnessing the C7 hypotheses: zero on equal
points, positive otherwise (the haversine has both properties). -/
def testDist (a b : Location) : ℚ := if a = b then 0 else 100

/-- C7 witness: the failing input evaluated with the sample distance. -/
theorem C7_zero_distance_sorted_last_witness :
    ((regAB.get_closest testDist origin0 5).1.servers.map Server.distance
      = [some 0, some (testDist origin0 farLoc0)])
    ∧ (regAB.get_closest testDist origin0 5).2
      = [set_distance testDist origin0 serverFar, set_distance testDist origin0 serverAt0]
    ∧ (set_distance testDist origin0 serverAt0).distance = some 0
    ∧ (set_distance testDist origin0 serverFar).distance
      = some (testDist origin0 farLoc0) :=
  C7_zero_distance_sorted_last testDist (by decide) (by decide)

/-! ## Claim C1: `measure_latency` (http_client.py)

Each attempt either succeeds with a measured wall-clock time (in ms) or
fails; a failure appends the sentinel `3_600_000.0`.  `valid` keeps the
timings under the sentinel; if none survive the function returns `None`,
otherwise `round(sum(timings) / (attempts * 2), 3)`.  An attempt's outcome is
embedded as `Option ℚ` (the measured milliseconds, or failure). -/

/-- The sentinel timing recorded for a failed attempt, in milliseconds. -/
def sentinelMs : ℚ := 3600000

/-- The timing appended for one attempt: the measured value on success, the
sentinel on failure. -/
def recordTiming : Option ℚ → ℚ
  | none => sentinelMs
  | some t => t

/-- Round-half-to-even on a rational, the tie convention of Python's
`round`. -/
def roundHalfEven (q : ℚ) : ℤ :=
  let f : ℤ := ⌊q⌋
  if q - f < 1/2 then f
  else if 1/2 < q - f then f + 1
  else if f % 2 = 0 then f else f + 1

/-- Python `round(q, 3)` idealized over the rationals. -/
def roundTo3 (q : ℚ) : ℚ := (roundHalfEven (q * 1000) : ℚ) / 1000

/-- `HTTPClient.measure_latency` as a function of the per-attempt outcomes
(`attempts = outcomes.length`): record each outcome, return `None` when no
timing is below the sentinel, else `round(sum / (attempts * 2), 3)`. -/
def measure_latency (outcomes : List (Option ℚ)) : Option ℚ :=
  let timings := outcomes.map recordTiming
  if timings.filter (fun t => decide (t < sentinelMs)) = [] then none
  else some (roundTo3 (timings.sum / ((outcomes.length : ℚ) * 2)))

/-- Evaluation of the rounding at the counterexample's quotient. -/
theorem roundTo3_at_cex : roundTo3 ((72000000001 : ℚ)/60000) = 1200000 := by
  have hfloor : (⌊((72000000001 : ℚ)/60000) * 1000⌋ : ℤ) = 1200000000 := by
    rw [Int.floor_eq_iff]
    constructor
    · norm_num
    · norm_num
  rw [roundTo3, roundHalfEven]
  simp only [hfloor]
  norm_num

/-- The filtered timings at the counterexample input. -/
theorem cex_filter_eval :
    (([some ((1:ℚ)/10000), none, none]).map recordTiming).filter
      (fun t => decide (t < sentinelMs)) = [(1:ℚ)/10000] := by
  simp only [List.map_cons, List.map_nil, recordTiming, List.filter_cons,
    List.filter_nil, decide_eq_true_eq, sentinelMs]
  norm_num

/-- The summed timings at the counterexample input. -/
theorem cex_sum_eval :
    (([some ((1:ℚ)/10000), none, none]).map recordTiming).sum = 72000000001/10000 := by
  simp only [List.map_cons, List.map_nil, recordTiming, List.sum_cons,
    List.sum_nil, sentinelMs]
  norm_num

/-- C1 counterexample: with one success of 0.0001 ms and two failures the
code returns the rounded value 1200000, not the exact
`sum(timings) / (2 × 3) = 72000000001/60000`; the claim's "equals ... exactly"
fails. -/
theorem C1_latency_counterexample :
    measure_latency [some (1/10000), none, none]
      ≠ some ((((1 : ℚ)/10000 + sentinelMs + sentinelMs)) / (2 * 3))
    ∧ measure_latency [some (1/10000), none, none] = some 1200000 := by
  constructor
  · simp only [measure_latency, cex_filter_eval, cex_sum_eval, List.length_cons,
      List.length_nil]
    norm_num [roundTo3_at_cex, sentinelMs]
  · simp only [measure_latency, cex_filter_eval, cex_sum_eval, List.length_cons,
      List.length_nil]
    norm_num [roundTo3_at_cex]

/-- C1 amended: with attempts = 3 and every successful timing below the
sentinel (guaranteed in the source by the request timeout), all attempts
failing yields absent; otherwise every failed attempt is recorded as the
sentinel 3,600,000 ms and the result is `sum(all recorded timings) /
(2 × attempts)` rounded to 3 decimal places (Python `round`), not the exact
quotient. -/
theorem C1_latency_sentinel_rounded (outs : List (Option ℚ))
    (h3 : outs.length = 3)
    (hv : ∀ q : ℚ, some q ∈ outs → q < sentinelMs) :
    ((∀ o ∈ outs, o = none) → measure_latency outs = none)
    ∧ ((∃ q : ℚ, some q ∈ outs) →
        measure_latency outs = some (roundTo3 ((outs.map recordTiming).sum / 6))) := by
  constructor
  · intro hall
    have hfil : (outs.map recordTiming).filter (fun t => decide (t < sentinelMs)) = [] := by
      apply List.filter_eq_nil_iff.mpr
      intro t ht
      rcases List.mem_map.mp ht with ⟨o, ho, rfl⟩
      rw [hall o ho]
      simp [recordTiming]
    rw [measure_latency]
    simp only [hfil, if_pos]
  · intro hex
    rcases hex with ⟨q, hq⟩
    have hqrec : q ∈ (outs.map recordTiming).filter (fun t => decide (t < sentinelMs)) := by
      apply List.mem_filter.mpr
      refine ⟨List.mem_map.mpr ⟨some q, hq, rfl⟩, by simpa using hv q hq⟩
    have hfil : (outs.map recordTiming).filter (fun t => decide (t < sentinelMs)) ≠ [] :=
      fun he => by rw [he] at hqrec; simp at hqrec
    rw [measure_latency]
    simp only [if_neg hfil, h3]
    norm_num

/-- C1 witness: one measured attempt of 10 ms and two failures. -/
theorem C1_latency_sentinel_rounded_witness :
    ((∀ o ∈ [some (10 : ℚ), none, none], o = none)
      → measure_latency [some (10 : ℚ), none, none] = none)
    ∧ ((∃ q : ℚ, some q ∈ [some (10 : ℚ), none, none]) →
        measure_latency [some (10 : ℚ), none, none]
          = some (roundTo3 ((([some (10 : ℚ), none, none]).map recordTiming).sum / 6))) :=
  C1_latency_sentinel_rounded [some 10, none, none] (by decide)
    (by
      intro q hq
      simp only [List.mem_cons, List.not_mem_nil, or_false] at hq
      rcases hq with hq | hq | hq
      · rw [Option.some_inj] at hq
        rw [hq]
        decide
      · exact absurd hq (by simp)
      · exact absurd hq (by simp))

/-! ## Claim C9: `_make_upload_payload` (engine.py)

`bytes` values are embedded as lists of byte values.  The filler alphabet is
`b'0123456789ABCDEFGHIJKLMNOPQRSTUVWXYZ'` (36 bytes) and the leading marker
`b'content1='` (9 bytes); the payload is the marker followed by the alphabet
repeated `body_len // 36 + 1` times and truncated to `body_len = size - 9`.
The claim restricts sizes to at least 9 bytes, where Python's signed
arithmetic and ℕ subtraction agree. -/

/-- The filler alphabet `b'0123456789ABCDEFGHIJKLMNOPQRSTUVWXYZ'`. -/
def chars36 : List ℕ :=
  [48, 49, 50, 51, 52, 53, 54, 55, 56, 57,
   65, 66, 67, 68, 69, 70, 71, 72, 73, 74, 75, 76, 77, 78, 79, 80, 81, 82,
   83, 84, 85, 86, 87, 88, 89, 90]

/-- The marker `b'content1='`. -/
def contentHead : List ℕ := [99, 111, 110, 116, 101, 110, 116, 49, 61]

/-- `chars * repeats` from the source: the alphabet concatenated with itself
`repeats` times. -/
def repeatChars (r : ℕ) : List ℕ := (List.replicate r chars36).flatten

/-- `_make_upload_payload(size)`. -/
def _make_upload_payload (size : ℕ) : List ℕ :=
  let body_len := size - contentHead.length
  let repeats := body_len / chars36.length + 1
  contentHead ++ (repeatChars repeats).take body_len

/-- Length of the repeated alphabet. -/
theorem repeatChars_length (r : ℕ) : (repeatChars r).length = r * 36 := by
  induction r with
  | zero => rfl
  | succ n ih =>
    simp only [repeatChars, List.replicate_succ, List.flatten_cons, List.length_append] at *
    rw [ih]
    simp [chars36]
    ring

/-- The repeated alphabet is the alphabet read cyclically. -/
theorem repeatChars_getD (r i : ℕ) (h : i < r * 36) :
    (repeatChars r).getD i 0 = chars36.getD (i % 36) 0 := by
  induction r generalizing i with
  | zero => omega
  | succ n ih =>
    have hsplit : repeatChars (n + 1) = chars36 ++ repeatChars n := by
      simp [repeatChars, List.replicate_succ]
    rw [hsplit]
    by_cases hi : i < 36
    · rw [listGetD_append_left chars36 (repeatChars n) i 0 (by simp [chars36]; omega)]
      rw [Nat.mod_eq_of_lt hi]
    · have h36 : 36 ≤ i := le_of_not_lt hi
      have hdec : i = 36 + (i - 36) := by omega
      have hlen : chars36.length = 36 := by rfl
      have key := listGetD_append_right chars36 (repeatChars n) (i - 36) 0
      rw [hlen] at key
      rw [hdec, key]
      have hrec : i - 36 < n * 36 := by omega
      rw [ih (i - 36) hrec]
      congr 1
      omega

/-- C9: for every requested size of at least 9 bytes (the marker length),
the payload is exactly `size` bytes, starts with `content1=`, and continues
with the filler alphabet repeated cyclically, truncated to the remaining
length. -/
theorem C9_payload_spec (size : ℕ) (h : 9 ≤ size) :
    (_make_upload_payload size).length = size
    ∧ (_make_upload_payload size).take 9 = contentHead
    ∧ ∀ i, i < size - 9 →
        (_make_upload_payload size).getD (9 + i) 0 = chars36.getD (i % 36) 0 := by
  have hlenHead : contentHead.length = 9 := by rfl
  have hlenChars : chars36.length = 36 := by rfl
  have hbody : size - contentHead.length = size - 9 := by rw [hlenHead]
  have hbound : size - 9 ≤ ((size - 9) / 36 + 1) * 36 := by
    have hmod := Nat.div_add_mod (size - 9) 36
    have hlt : (size - 9) % 36 < 36 := Nat.mod_lt _ (by omega)
    omega
  refine ⟨?_, ?_, ?_⟩
  · show (contentHead ++ (repeatChars ((size - contentHead.length) / chars36.length + 1)).take
      (size - contentHead.length)).length = size
    rw [List.length_append, hlenHead, List.length_take, repeatChars_length, hlenChars]
    rw [min_eq_left hbound]
    omega
  · show (contentHead ++ (repeatChars ((size - contentHead.length) / chars36.length + 1)).take
      (size - contentHead.length)).take 9 = contentHead
    rw [← hlenHead, List.take_left]
  · intro i hi
    show (contentHead ++ (repeatChars ((size - contentHead.length) / chars36.length + 1)).take
      (size - contentHead.length)).getD (9 + i) 0 = chars36.getD (i % 36) 0
    rw [← hlenHead, listGetD_append_right]
    rw [hbody, hlenChars] at *
    rw [listGetD_take _ _ _ _ hi]
    exact repeatChars_getD _ i (by omega)

/-- C9 witness: the payload at the concrete size 50. -/
theorem C9_payload_spec_witness :
    (_make_upload_payload 50).length = 50
    ∧ (_make_upload_payload 50).take 9 = contentHead
    ∧ ∀ i, i < 50 - 9 →
        (_make_upload_payload 50).getD (9 + i) 0 = chars36.getD (i % 36) 0 :=
  C9_payload_spec 50 (by decide)

/-! ## Claim C4: the upload work queue (engine.py, test_upload)

`UPLOAD_SIZES[4:]` (the source's `ratio = 5`, slice `[ratio - 1:]`) gives
the three sizes actually uploaded; one payload is pre-built per size, and
`while len(work_queue) < 50: work_queue.extend(payloads)` replicates them.
The loop is embedded with fuel 50: every iteration appends at least one
element for a non-empty payload list, so 50 iterations always reach the
loop's exit condition, and the function equals the Python loop's result. -/

/-- `UPLOAD_SIZES` from config.py (bytes). -/
def UPLOAD_SIZES : List ℕ := [32768, 65536, 131072, 262144, 524288, 1048576, 7340032]

/-- `up_sizes = UPLOAD_SIZES[ratio - 1:]` with `ratio = 5`. -/
def up_sizes : List ℕ := UPLOAD_SIZES.drop 4

/-- The pre-built payload per configured upload size. -/
def upload_payloads : List (List ℕ) := up_sizes.map _make_upload_payload

/-- One fuel-indexed step of `while len(work_queue) < 50: work_queue.extend(payloads)`. -/
def build_queue_aux {α} : ℕ → List α → List α → List α
  | 0, _, acc => acc
  | fuel + 1, ps, acc =>
    if acc.length < 50 then build_queue_aux fuel ps (acc ++ ps) else acc

/-- The upload work queue built from the payload list. -/
def build_work_queue {α} (ps : List α) : List α := build_queue_aux 50 ps []

/-- The queue builder only looks at lengths, so it commutes with `map`. -/
theorem build_queue_aux_map {α β} (g : α → β) :
    ∀ (fuel : ℕ) (ps acc : List α),
      build_queue_aux fuel (ps.map g) (acc.map g) = (build_queue_aux fuel ps acc).map g := by
  intro fuel
  induction fuel with
  | zero => intro ps acc; rfl
  | succ n ih =>
    intro ps acc
    by_cases h : acc.length < 50
    · rw [build_queue_aux, build_queue_aux, if_pos (by simpa using h), if_pos h,
        ← List.map_append]
      exact ih ps (acc ++ ps)
    · rw [build_queue_aux, build_queue_aux, if_neg (by simpa using h), if_neg h]

/-- The payload queue is the size queue mapped through the payload builder. -/
theorem upload_queue_as_map :
    build_work_queue upload_payloads = (build_work_queue up_sizes).map _make_upload_payload := by
  have h := build_queue_aux_map _make_upload_payload 50 up_sizes []
  simpa [build_work_queue, upload_payloads] using h

/-- C4 counterexample: with the default three payload sizes the submitted
upload job list holds 51 jobs, not at most 50 — the `while` guard re-checks
only before extending by the whole payload set, so the final length is the
first multiple of 3 at or above 50. -/
theorem C4_queue_counterexample :
    ¬ ((build_work_queue upload_payloads).length ≤ 50) := by
  rw [upload_queue_as_map, List.length_map]
  decide

/-- C4 amended: the queue replicates the payload set until the cap of 50 is
reached or passed; for the default configuration (three distinct upload
sizes) the submitted job list holds exactly 51 jobs, and it is the payload
list for the three sizes repeated 17 times. -/
theorem C4_queue_length :
    (build_work_queue upload_payloads).length = 51
    ∧ build_work_queue up_sizes
      = (List.replicate 17 up_sizes).flatten := by
  constructor
  · rw [upload_queue_as_map, List.length_map]
    decide
  · decide

/-! ## Claim C8: phase throughput (engine.py, tails of test_download/test_upload)

Both phases end with

    elapsed = ... ; if elapsed <= 0 or total_bytes == 0: return 0.0
    return (total_bytes * 8.0) / elapsed

`total_bytes` is the sum of the byte counts of the completions observed
before the deadline/cancellation break (each `f.result()` added under the
loop), embedded as a list of counted byte values. -/

/-- The common speed computation at the end of both phases. -/
def compute_speed (total_bytes : ℕ) (elapsed : ℚ) : ℚ :=
  if elapsed ≤ 0 ∨ total_bytes = 0 then 0
  else ((total_bytes : ℚ) * 8) / elapsed

/-- Aggregate phase speed from the observed per-completion byte counts. -/
def phase_speed (counted : List ℕ) (elapsed : ℚ) : ℚ :=
  compute_speed counted.sum elapsed

/-! ## Claim C2: the engine pipeline (engine.py, run_test)

The transport layer never lets an exception cross its boundary (every
network call returns a value), so one complete run is a pure function of
the per-call outcomes, gathered in `Transport`:
  * `config`: the parsed result of `get_configuration` (absent on fetch
    failure, missing `client` element, or parse error — the code folds all
    three into `False`);
  * `directory`: the parsed server records (absent when both directory
    endpoints fail or the XML does not parse; individually malformed records
    are already skipped inside the parse loop);
  * `latency`: the `measure_latency` outcome per server id;
  * `downloadCounted`/`uploadCounted` and the elapsed times: the observed
    completion byte counts and wall-clock duration of each transfer phase
    (the bounded pool, deadline and cancellation determine WHICH completions
    are observed; the pipeline consumes only the observed multiset). -/

structure Transport where
  config : Option ClientInfo
  directory : Option (List Server)
  latency : ℕ → Option ℚ
  downloadCounted : List ℕ
  downloadElapsed : ℚ
  uploadCounted : List ℕ
  uploadElapsed : ℚ

/-- `MAX_SERVERS_TO_TEST` from config.py. -/
def MAX_SERVERS_TO_TEST : ℕ := 5

/-- `get_servers`: rebuild the registry from the parsed records; when the
client location is known (always true on the `run_test` path) and servers
were parsed, keep only the closest `limit`; succeed iff servers remain. -/
def get_servers (dist : Location → Location → ℚ) (dir : Option (List Server))
    (ci : ClientInfo) (limit : ℕ) : Option ServerList :=
  match dir with
  | none => none
  | some recs =>
    let sl := ServerList.fromList recs
    let sl2 :=
      if 0 < sl.servers.length then
        ServerList.fromList ((sl.get_closest dist ci.location limit).2)
      else sl
    if 0 < sl2.servers.length then some sl2 else none

/-- The latency probe of `find_best_server`: every candidate's `latency`
field is written with its `measure_latency` outcome (the list and the
id-index alias the same objects in Python). -/
def probe (lat : ℕ → Option ℚ) (sl : ServerList) : ServerList :=
  ⟨sl.servers.map (fun s => { s with latency := lat s.id }),
   sl.dict.map (fun p => (p.1, { p.2 with latency := lat p.2.id }))⟩

/-- `test_download`: 0.0 without a selected server, else the phase speed of
the observed completions. -/
def test_download (t : Transport) (best : Option Server) : ℚ :=
  match best with
  | none => 0
  | some _ => phase_speed t.downloadCounted t.downloadElapsed

/-- `test_upload`: 0.0 without a selected server, else the phase speed of
the observed completions. -/
def test_upload (t : Transport) (best : Option Server) : ℚ :=
  match best with
  | none => 0
  | some _ => phase_speed t.uploadCounted t.uploadElapsed

/-- `run_test`: configuration, discovery, best-server selection, then the
two transfer phases; each failure returns the result as populated so far;
`result.ping = best.latency or 0.0`. -/
def run_test (dist : Location → Location → ℚ) (t : Transport) : TestResult :=
  match t.config with
  | none => emptyResult
  | some ci =>
    match get_servers dist t.directory ci MAX_SERVERS_TO_TEST with
    | none => { emptyResult with client := some ci }
    | some sl =>
      match (probe t.latency sl).get_best with
      | none => { emptyResult with client := some ci }
      | some best =>
        { download_speed := test_download t (some best),
          upload_speed := test_upload t (some best),
          ping := best.latency.getD 0,
          server := some best,
          client := some ci,
          bytes_sent := 0, bytes_received := 0 }

/-- C8: the reported aggregate speed is `(total counted bytes × 8) /
elapsed`, and exactly 0 when the elapsed time is ≤ 0 or no bytes were
counted; both transfer phases report exactly this value. -/
theorem C8_throughput_formula (counted : List ℕ) (elapsed : ℚ) :
    (elapsed ≤ 0 ∨ counted.sum = 0 → phase_speed counted elapsed = 0)
    ∧ (0 < elapsed ∧ counted.sum ≠ 0 →
        phase_speed counted elapsed = ((counted.sum : ℚ) * 8) / elapsed)
    ∧ (∀ (t : Transport) (s : Server),
        t.downloadCounted = counted → t.downloadElapsed = elapsed →
        test_download t (some s) = phase_speed counted elapsed)
    ∧ (∀ (t : Transport) (s : Server),
        t.uploadCounted = counted → t.uploadElapsed = elapsed →
        test_upload t (some s) = phase_speed counted elapsed) := by
  refine ⟨?_, ?_, ?_, ?_⟩
  · intro h
    rw [phase_speed, compute_speed, if_pos h]
  · intro h
    rw [phase_speed, compute_speed, if_neg]
    push_neg
    exact ⟨h.1, h.2⟩
  · intro t s h1 h2
    rw [test_download, h1, h2]
  · intro t s h1 h2
    rw [test_upload, h1, h2]

/-- C2: for every combination of transport outcomes the pipeline produces a
`TestResult` (the embedding is a total function — no outcome raises);
the fields written by the config/discovery/probe phases (client, server,
ping) do not depend on the download/upload outcomes, so a failing transfer
phase leaves them exactly as the earlier phases populated them; and an
absent `server` field coincides with total failure: every measured field is
still at its initial zero value. -/
theorem C2_run_test_progress (dist : Location → Location → ℚ) (t t' : Transport)
    (hc : t.config = t'.config) (hd : t.directory = t'.directory)
    (hl : t.latency = t'.latency) :
    ((run_test dist t).client = (run_test dist t').client
      ∧ (run_test dist t).server = (run_test dist t').server
      ∧ (run_test dist t).ping = (run_test dist t').ping)
    ∧ ((run_test dist t).server.isSome = true → (run_test dist t).client.isSome = true)
    ∧ ((run_test dist t).server = none →
        (run_test dist t).download_speed = 0
        ∧ (run_test dist t).upload_speed = 0
        ∧ (run_test dist t).ping = 0) := by
  cases hC : t.config with
  | none =>
    have hC' : t'.config = none := by rw [← hc]; exact hC
    simp [run_test, hC, hC', emptyResult]
  | some ci =>
    have hC' : t'.config = some ci := by rw [← hc]; exact hC
    cases hS : get_servers dist t.directory ci MAX_SERVERS_TO_TEST with
    | none =>
      have hS' : get_servers dist t'.directory ci MAX_SERVERS_TO_TEST = none := by
        rw [← hd]; exact hS
      simp [run_test, hC, hC', hS, hS', emptyResult]
    | some sl =>
      have hS' : get_servers dist t'.directory ci MAX_SERVERS_TO_TEST = some sl := by
        rw [← hd]; exact hS
      cases hB : (probe t.latency sl).get_best with
      | none =>
        have hB' : (probe t'.latency sl).get_best = none := by rw [← hl]; exact hB
        simp [run_test, hC, hC', hS, hS', hB, hB', emptyResult]
      | some best =>
        have hB' : (probe t'.latency sl).get_best = some best := by rw [← hl]; exact hB
        simp [run_test, hC, hC', hS, hS', hB, hB']

/-- A concrete server record for the C2 witness. -/
def witServer : Server :=
  { id := 3, sponsor := "W", name := "W", location := ⟨1, 2⟩, country := "Z",
    url := "http://w/speedtest/upload.php" }

/-- A concrete transport outcome: everything succeeds, one server, 10 ms
latency, one download completion and a failing upload phase. -/
def witTransport : Transport :=
  { config := some { ip := "1.2.3.4", isp := "ISP", location := ⟨10, 10⟩ },
    directory := some [witServer],
    latency := fun i => if i = 3 then some 10 else none,
    downloadCounted := [12500000],
    downloadElapsed := 10,
    uploadCounted := [],
    uploadElapsed := 10 }

/-- C2 witness: the progress properties at the concrete transport. -/
theorem C2_run_test_progress_witness :
    ((run_test testDist witTransport).client = (run_test testDist witTransport).client
      ∧ (run_test testDist witTransport).server = (run_test testDist witTransport).server
      ∧ (run_test testDist witTransport).ping = (run_test testDist witTransport).ping)
    ∧ ((run_test testDist witTransport).server.isSome = true
        → (run_test testDist witTransport).client.isSome = true)
    ∧ ((run_test testDist witTransport).server = none →
        (run_test testDist witTransport).download_speed = 0
        ∧ (run_test testDist witTransport).upload_speed = 0
        ∧ (run_test testDist witTransport).ping = 0) :=
  C2_run_test_progress testDist witTransport witTransport rfl rfl rfl

/-! ## Claim C3: the worker cancellation gate (engine.py, worker closures)

Both phase workers begin with

    if self._stop.is_set(): return 0

and only then perform the transfer (`download_file` / `upload_data`), whose
byte count they return in full; the flag is never consulted again inside a
unit of work.  The flag is a `threading.Event`: within a phase it is only
ever set (`stop()`), never cleared, so the flag each worker observes at its
start time is monotone in time. -/

/-- What a worker returns given the flag it observed at its start and the
byte count its transfer would produce. -/
def worker_result (stopSet : Bool) (transfer : ℕ) : ℕ :=
  if stopSet then 0 else transfer

/-- Whether the worker begins its transfer at all. -/
def worker_starts (stopSet : Bool) : Bool := !stopSet

/-- C3: with a monotone (sticky) cancellation flag, once the flag is set at
time `T` every worker starting at or after `T` performs no transfer and
returns 0 bytes; a worker that observed the flag clear (already in flight)
is not interrupted and reports its full transfer. -/
theorem C3_cancellation_gate (flag : ℕ → Bool)
    (mono : ∀ i j, i ≤ j → flag i = true → flag j = true)
    (T : ℕ) (hT : flag T = true) :
    (∀ start transfer, T ≤ start →
      worker_starts (flag start) = false ∧ worker_result (flag start) transfer = 0)
    ∧ (∀ start transfer, flag start = false →
        worker_result (flag start) transfer = transfer) := by
  constructor
  · intro start transfer hle
    have hset : flag start = true := mono T start hle hT
    rw [hset]
    exact ⟨rfl, rfl⟩
  · intro start transfer hclear
    rw [hclear]
    rfl

/-- C3 witness: a flag set from time 2 on; a worker starting at time 5 is
gated, one that started at time 0 is not. -/
theorem C3_cancellation_gate_witness :
    (∀ start transfer, 2 ≤ start →
      worker_starts ((fun n => decide (2 ≤ n)) start) = false
      ∧ worker_result ((fun n => decide (2 ≤ n)) start) transfer = 0)
    ∧ (∀ start transfer, (fun n => decide (2 ≤ n)) start = false →
        worker_result ((fun n => decide (2 ≤ n)) start) transfer = transfer) :=
  C3_cancellation_gate (fun n => decide (2 ≤ n))
    (by
      intro i j hij hi
      simp only [decide_eq_true_eq] at hi
      simp only [decide_eq_true_eq]
      omega)
    2 (by decide)

/-! ## Claim C10: `_stop.clear()` on phase entry (engine.py)

`test_download` and `test_upload` both run `self._stop.clear()` immediately
after the `if not self.best_server: return 0.0` guard, so the flag's history
over one engine is a fold of events: `stop()` sets it, a phase entry clears
it.  `stop()` requests arriving while no phase is running are therefore
erased by the next phase entry. -/

inductive EngineEv
  | stopReq
  | phaseEnter
deriving DecidableEq

/-- Effect of one event on the shared flag. -/
def stepFlag : Bool → EngineEv → Bool
  | _, .stopReq => true
  | _, .phaseEnter => false

/-- The flag after a sequence of events (initially clear). -/
def flagAfter (evs : List EngineEv) : Bool := evs.foldl stepFlag false

/-- Entry of `test_download`: without a best server the phase refuses to run
and leaves the flag alone; otherwise its first action clears the flag. -/
def download_entry (best : Option Server) (flag : Bool) : Bool × Bool :=
  match best with
  | none => (false, flag)
  | some _ => (true, false)

/-- Entry of `test_upload`: identical guard-then-clear structure. -/
def upload_entry (best : Option Server) (flag : Bool) : Bool × Bool :=
  match best with
  | none => (false, flag)
  | some _ => (true, false)

/-- Folding only stop requests over the flag: set iff a request occurred or
the flag was already set. -/
theorem foldl_stepFlag_no_enter (ws : List EngineEv) :
    ∀ acc : Bool, EngineEv.phaseEnter ∉ ws →
      (ws.foldl stepFlag acc = true ↔ (EngineEv.stopReq ∈ ws ∨ acc = true)) := by
  induction ws with
  | nil => intro acc h; simp
  | cons a ws ih =>
    intro acc h
    cases a with
    | phaseEnter => exact absurd (List.mem_cons_self _ _) h
    | stopReq =>
      have htail : EngineEv.phaseEnter ∉ ws := fun hm => h (List.mem_cons_of_mem _ hm)
      have hstep : stepFlag acc EngineEv.stopReq = true := rfl
      rw [List.foldl_cons, hstep, ih true htail]
      simp

/-- C10: whatever happened before (any mix of stops and phase entries), a
phase that actually runs (best server present) clears the flag on entry, so
a stop requested while idle or between phases is erased; within the phase
the flag is set exactly when a stop was requested after the entry. -/
theorem C10_phase_entry_clears_flag (s : Server) (flag : Bool)
    (evs ws : List EngineEv) (hws : EngineEv.phaseEnter ∉ ws) :
    download_entry (some s) flag = (true, false)
    ∧ upload_entry (some s) flag = (true, false)
    ∧ flagAfter (evs ++ [EngineEv.phaseEnter]) = false
    ∧ (flagAfter (evs ++ EngineEv.phaseEnter :: ws) = true
        ↔ EngineEv.stopReq ∈ ws) := by
  refine ⟨rfl, rfl, ?_, ?_⟩
  · rw [flagAfter, List.foldl_append]
    rfl
  · rw [flagAfter, List.foldl_append, List.foldl_cons]
    rw [foldl_stepFlag_no_enter ws _ hws]
    simp [stepFlag]

/-- C10 witness: a stop issued before the phase entry is erased; the stop
issued after the entry is the one that shows. -/
theorem C10_phase_entry_clears_flag_witness :
    download_entry (some witServer) true = (true, false)
    ∧ upload_entry (some witServer) true = (true, false)
    ∧ flagAfter ([EngineEv.stopReq] ++ [EngineEv.phaseEnter]) = false
    ∧ (flagAfter ([EngineEv.stopReq] ++ EngineEv.phaseEnter :: [EngineEv.stopReq]) = true
        ↔ EngineEv.stopReq ∈ [EngineEv.stopReq]) :=
  C10_phase_entry_clears_flag witServer true [EngineEv.stopReq] [EngineEv.stopReq]
    (by decide)
